import Mathlib

/-!
Verification of the lesson-package synthesis pipeline in
`src/tools/lesson_generator.py`.

Python strings are modelled as lists of character code points (`List Nat`);
`S` converts a Lean string literal to this representation.  Character-class
predicates (`str.strip`, `str.lower`, regex classes) are modelled over the
ASCII range, which covers every string the generator itself produces and the
markdown inputs the claims quantify over.  Filesystem state is a partial map
from paths (component lists, the resolved destination standing for an
absolute root) to file contents.
-/

namespace LessonGen

/-- Python strings as lists of code points. -/
abbrev PyStr := List Nat

/-- Code points of a Lean string literal. -/
def S (s : String) : PyStr := s.data.map Char.toNat

/-- Models Python `str.isspace` / regex `\s` over the ASCII range. -/
def pyIsSpace (n : Nat) : Bool :=
  n == 32 || n == 9 || n == 10 || n == 13 || n == 11 || n == 12 ||
  n == 28 || n == 29 || n == 30

/-- The regex class `[0-9a-zA-Z_]` from `lesson_generator.py`. -/
def isWordChar (n : Nat) : Bool :=
  decide ((48 ≤ n ∧ n ≤ 57) ∨ (65 ≤ n ∧ n ≤ 90) ∨ (97 ≤ n ∧ n ≤ 122) ∨ n = 95)

/-- Models Python `str.isdigit` over ASCII (`'0'..'9'`). -/
def pyIsDigit (n : Nat) : Bool := decide (48 ≤ n ∧ n ≤ 57)

/-- Models Python `str.lower` on one ASCII code point. -/
def pyToLower (n : Nat) : Nat := if 65 ≤ n ∧ n ≤ 90 then n + 32 else n

/-- Models Python `str.lower`. -/
def pyLower (s : PyStr) : PyStr := s.map pyToLower

/-- Drop matching code points from the end of a string. -/
def dropTrailing (p : Nat → Bool) (s : PyStr) : PyStr :=
  (s.reverse.dropWhile p).reverse

/-- Models Python `str.strip(chars)`: drop matching code points at both ends. -/
def stripBy (p : Nat → Bool) (s : PyStr) : PyStr :=
  dropTrailing p (s.dropWhile p)

/-- Models Python `str.strip()` (whitespace). -/
def pyStrip (s : PyStr) : PyStr := stripBy pyIsSpace s

/-- Models Python `str.strip("_")`. -/
def stripUnderscore (s : PyStr) : PyStr := stripBy (fun n => decide (n = 95)) s

/-- Models Python `str.strip("# ")` in `create_lesson_package`. -/
def stripHashSpace (s : PyStr) : PyStr := stripBy (fun n => decide (n = 35 ∨ n = 32)) s

/-- Line-break code points recognised by Python `str.splitlines`
(ASCII range: LF, VT, FF, CR, FS, GS, RS). -/
def isLineBreak (n : Nat) : Bool :=
  n == 10 || n == 11 || n == 12 || n == 13 || n == 28 || n == 29 || n == 30

/-- Split off the first line: returns the line and the remainder after its
terminator, treating CR LF as one terminator, as `str.splitlines` does. -/
def takeLine : PyStr → PyStr × PyStr
  | [] => ([], [])
  | c :: cs =>
    if c = 13 then
      match cs with
      | d :: cs' => if d = 10 then ([], cs') else ([], d :: cs')
      | [] => ([], [])
    else if isLineBreak c then ([], cs)
    else ((c :: (takeLine cs).1), (takeLine cs).2)

/-- Fuelled worker for `splitlines` (structural recursion on the fuel,
so that the kernel can evaluate it). -/
def splitlinesF : Nat → PyStr → List PyStr
  | _, [] => []
  | 0, _ :: _ => []
  | fuel + 1, c :: cs =>
    let p := takeLine (c :: cs)
    p.1 :: splitlinesF fuel p.2

/-- Models Python `str.splitlines`. -/
def splitlines (s : PyStr) : List PyStr := splitlinesF s.length s

/-- Join strings with a separator; `joinWith (S x) ls` models `x.join(ls)`. -/
def joinWith (sep : PyStr) : List PyStr → PyStr
  | [] => []
  | [x] => x
  | x :: xs => x ++ sep ++ joinWith sep xs

/-- Models Python `str.startswith` / list prefix test. -/
def startsWith : PyStr → PyStr → Bool
  | [], _ => true
  | _ :: _, [] => false
  | a :: as, b :: bs => a == b && startsWith as bs

/-- Models Python `needle in hay` substring containment. -/
def containsSub (needle : PyStr) : PyStr → Bool
  | [] => startsWith needle []
  | c :: rest => startsWith needle (c :: rest) || containsSub needle rest

/-- Worker for `re.sub(r"[^0-9a-zA-Z_]+", "_", s)`: the flag records whether
we are inside a non-word run whose replacement `_` was already emitted. -/
def subNonWordAux : Bool → PyStr → PyStr
  | _, [] => []
  | inRun, c :: rest =>
    if isWordChar c then c :: subNonWordAux false rest
    else if inRun then subNonWordAux true rest
    else 95 :: subNonWordAux true rest

/-- Models `re.sub(r"[^0-9a-zA-Z_]+", "_", s)`: each maximal run of
non-word code points becomes a single `_`. -/
def subNonWordRuns (s : PyStr) : PyStr := subNonWordAux false s

/-- Worker for `re.sub(r"_+", "_", s)`. -/
def collapseUAux : Bool → PyStr → PyStr
  | _, [] => []
  | inRun, c :: rest =>
    if c = 95 then
      if inRun then collapseUAux true rest else 95 :: collapseUAux true rest
    else c :: collapseUAux false rest

/-- Models `re.sub(r"_+", "_", s)`: runs of underscores collapse to one. -/
def collapseUnderscoreRuns (s : PyStr) : PyStr := collapseUAux false s

/-- Models `re.sub(r"[^0-9a-zA-Z_-]", "_", s)` (per-character, hyphen kept),
used for the lesson name in `create_lesson_package`. -/
def subNonWordHyphen (s : PyStr) : PyStr :=
  s.map (fun c => if isWordChar c || c == 45 then c else 95)

/-- First code point is an ASCII digit. -/
def headIsDigit : PyStr → Bool
  | [] => false
  | c :: _ => pyIsDigit c

/-! ## Topic segmentation (`_split_into_topics`, lines 80-123) -/

/-- A topic record `{"title": ..., "summary": ...}` as built by
`_split_into_topics`. -/
structure Topic where
  title : PyStr
  summary : PyStr
deriving DecidableEq

/-- Scanner state of `_split_into_topics`: accumulated topics, the current
optional title, and the accumulating body lines. -/
structure SegState where
  topics : List Topic
  curTitle : Option PyStr
  curLines : List PyStr
deriving DecidableEq

/-- Initial scanner state. -/
def initSeg : SegState := ⟨[], none, []⟩

/-- Python truthiness of the optional `cur_title` (`None` and `""` are
falsy). -/
def truthyOpt : Option PyStr → Bool
  | none => false
  | some t => decide (t ≠ [])

/-- `cur_lines[0] if cur_lines else "Topic"` in `flush`. -/
def headLineOr : List PyStr → PyStr
  | [] => S "Topic"
  | l :: _ => l

/-- The nested `flush()` of `_split_into_topics` (lines 90-94): appends the
current topic when the title or the body lines are truthy. -/
def flushSeg (st : SegState) : SegState :=
  if truthyOpt st.curTitle || decide (st.curLines ≠ []) then
    let title := match st.curTitle with
      | some t => if t = [] then headLineOr st.curLines else t
      | none => headLineOr st.curLines
    let summary := pyStrip (joinWith [10] st.curLines)
    { st with topics := st.topics ++ [⟨pyStrip title, summary⟩] }
  else st

/-- Models `re.match(r"^#{1,6}\s+", s)` together with
`re.sub(r"^#{1,6}\s+", "", s)`: on a match, returns the line with the
heading marker and the following whitespace run removed. -/
def matchHeading (s : PyStr) : Option PyStr :=
  let k := (s.takeWhile (· == 35)).length
  if 1 ≤ k && k ≤ 6 then
    match s.dropWhile (· == 35) with
    | c :: restAfter =>
      if pyIsSpace c then some ((c :: restAfter).dropWhile pyIsSpace) else none
    | [] => none
  else none

/-- Models `re.match(r"^(-|\*|\d+\.)\s+", s)` as a Boolean test. -/
def matchListItem (s : PyStr) : Bool :=
  match s with
  | 45 :: c :: _ => pyIsSpace c
  | 42 :: c :: _ => pyIsSpace c
  | _ =>
    if s.takeWhile pyIsDigit = [] then false
    else
      match s.dropWhile pyIsDigit with
      | 46 :: c :: _ => pyIsSpace c
      | _ => false

/-- One iteration of the line loop of `_split_into_topics` (lines 96-114). -/
def stepLine (st : SegState) (ln : PyStr) : SegState :=
  let stripped := pyStrip ln
  if stripped = [] then
    if st.curLines ≠ [] then { st with curLines := st.curLines ++ [ln] } else st
  else
    match matchHeading stripped with
    | some rem =>
      let st1 := if truthyOpt st.curTitle || decide (st.curLines ≠ []) then flushSeg st else st
      { st1 with curTitle := some rem, curLines := [] }
    | none =>
      if matchListItem stripped && !(truthyOpt st.curTitle) then
        let st1 := if st.curLines ≠ [] then flushSeg st else st
        { st1 with curTitle := none, curLines := [stripped] }
      else
        { st with curLines := st.curLines ++ [ln] }

/-- Models `_split_into_topics(text)` (lines 80-123): scan lines, final
flush, whole-text fallback topic, then the normalisation loop. -/
def splitIntoTopics (text : PyStr) : List Topic :=
  let lines := splitlines text
  let st := lines.foldl stepLine initSeg
  let st2 := flushSeg st
  let ts := if st2.topics = [] then [⟨S "Lesson", text⟩] else st2.topics
  ts.map (fun t => ⟨if t.title = [] then S "Topic" else t.title, pyStrip t.summary⟩)

/-! ## Classification and example synthesis (`_generate_example_code`,
lines 126-141) -/

/-- The behavioural categories of the spec, realised by the keyword branch
chain of `_generate_example_code`. -/
inductive Category
  | AGGREGATE
  | REVERSE
  | PREDICATE
  | IDENTITY
deriving DecidableEq

/-- `"sum" in t or "total" in t or "add" in t` (line 133). -/
def aggKw (t : PyStr) : Bool :=
  containsSub (S "sum") t || containsSub (S "total") t || containsSub (S "add") t

/-- `"reverse" in t or "reversed" in t` (line 135). -/
def revKw (t : PyStr) : Bool :=
  containsSub (S "reverse") t || containsSub (S "reversed") t

/-- `"validate" in t or "is_" in t or "check" in t` (line 137). -/
def predKw (t : PyStr) : Bool :=
  containsSub (S "validate") t || containsSub (S "is_") t || containsSub (S "check") t

/-- The branch chain of `_generate_example_code` (lines 133-140) applied to
`(topic.get("title") or "topic").lower()` (line 128). -/
def classifyTitle (titleRaw : PyStr) : Category :=
  let t := pyLower (if titleRaw = [] then S "topic" else titleRaw)
  if aggKw t then .AGGREGATE
  else if revKw t then .REVERSE
  else if predKw t then .PREDICATE
  else .IDENTITY

/-- The function name computed on lines 128-132:
`re.sub(r"[^0-9a-zA-Z_]+", "_", title).strip("_")[:30] or "example"`, with
an `f_` prefix when the result starts with a digit. -/
def funcNameOf (titleRaw : PyStr) : PyStr :=
  let title := pyLower (if titleRaw = [] then S "topic" else titleRaw)
  let base := (stripUnderscore (subNonWordRuns title)).take 30
  let fn := if base = [] then S "example" else base
  if headIsDigit fn then S "f_" ++ fn else fn

/-- Models `_generate_example_code(topic)` (lines 126-141); the branch
conditions are exactly `classifyTitle`. -/
def generateExampleCode (titleRaw : PyStr) : PyStr :=
  let fn := funcNameOf titleRaw
  match classifyTitle titleRaw with
  | .AGGREGATE =>
    S "def " ++ fn ++ S "(numbers):\n    \"\"\"Return the sum of a list of numbers.\"\"\"\n    return sum(numbers)\n"
  | .REVERSE =>
    S "def " ++ fn ++ S "(s):\n    \"\"\"Return the reversed string.\"\"\"\n    return s[::-1]\n"
  | .PREDICATE =>
    S "def " ++ fn ++ S "(value):\n    \"\"\"A simple truthy checker.\"\"\"\n    return bool(value)\n"
  | .IDENTITY =>
    S "def " ++ fn ++ S "(x):\n    \"\"\"Return the input unchanged (example).\"\"\"\n    return x\n"

/-! ## Skeleton derivation (`_generate_student_skeleton`, lines 144-162) -/

/-- The placeholder comment line inserted into the skeleton. -/
def todoLine : PyStr := S "    # TODO: implement this function"

/-- The not-implemented statement line inserted into the skeleton. -/
def raiseLine : PyStr := S "    raise NotImplementedError()"

/-- `ln.startswith("def ")`. -/
def isDefLine (l : PyStr) : Bool := startsWith (S "def ") l

/-- The line loop of `_generate_student_skeleton` (lines 149-159); the flag
is `in_def`. -/
def skelLines : Bool → List PyStr → List PyStr
  | _, [] => []
  | inDef, ln :: rest =>
    if isDefLine ln then ln :: skelLines true rest
    else if inDef then todoLine :: raiseLine :: skelLines false rest
    else ln :: skelLines false rest

/-- Models `_generate_student_skeleton(example_code)` (lines 144-162). -/
def generateStudentSkeleton (code : PyStr) : PyStr :=
  let out := skelLines false (splitlines code)
  if out = [] then S "# TODO: implement\n"
  else joinWith [10] out ++ [10]

/-! ## Test synthesis (`_generate_test_for_example`, lines 165-203) -/

/-- Models `_generate_test_for_example(topic, module, func, path)` with
`src` the text read back from the just-written example file (lines 171-183);
the topic argument is unused by the source function. -/
def generateTestForExample (moduleRef funcName src : PyStr) : PyStr :=
  let header := [S "import pytest", S "from " ++ moduleRef ++ S " import " ++ funcName]
  let body :=
    if containsSub (S "return sum") src || containsSub (S "sum(") src then
      [S "def test_" ++ funcName ++ S "_sum_basic():",
       S "    assert " ++ funcName ++ S "([1,2,3]) == 6",
       S "    assert " ++ funcName ++ S "([]) == 0"]
    else if containsSub (S "return s[::-1]") src || containsSub (S "[::-1]") src then
      [S "def test_" ++ funcName ++ S "_reverse_basic():",
       S "    assert " ++ funcName ++ S "(\x27abc\x27) == \x27cba\x27",
       S "    assert " ++ funcName ++ S "(\x27\x27) == \x27\x27"]
    else if containsSub (S "return bool") src || containsSub (S "bool(") src then
      [S "def test_" ++ funcName ++ S "_truthy_basic():",
       S "    assert " ++ funcName ++ S "(1) is True",
       S "    assert " ++ funcName ++ S "(0) is False"]
    else
      [S "def test_" ++ funcName ++ S "_echo_basic():",
       S "    assert " ++ funcName ++ S "(42) == 42",
       S "    assert " ++ funcName ++ S "(\x27x\x27) == \x27x\x27"]
  joinWith [10] (header ++ body) ++ [10]

/-! ## Package materialization (`create_lesson_package`, lines 206-277)

The filesystem is a partial map from paths to file contents; a path is the
list of components below the filesystem root.  The resolved destination
(`Path(out_dir).expanduser().resolve()`, line 208) is passed in as an
already-resolved absolute component list; `pathlib` joining is modelled as
list concatenation. -/

/-- A filesystem path: components below the root, each a Python string. -/
abbrev FPath := List PyStr

/-- Filesystem contents: a partial map from paths to file bytes. -/
abbrev FS := FPath → Option PyStr

/-- The empty filesystem. -/
def emptyFS : FS := fun _ => none

/-- `path.write_text(content)`: whole-file overwrite. -/
def fsWrite (p : FPath) (c : PyStr) (fs : FS) : FS :=
  fun q => if q = p then some c else fs q

/-- Path prefix test (component-wise). -/
def underPath : FPath → FPath → Bool
  | [], _ => true
  | _ :: _, [] => false
  | a :: as, b :: bs => decide (a = b) && underPath as bs

/-- `shutil.rmtree(base)` on the file map: every file under `base` is
removed (line 212-213; the existence guard is irrelevant on the file map). -/
def rmtreeUnder (base : FPath) (fs : FS) : FS :=
  fun q => if underPath base q then none else fs q

/-- One entry of the manifest `created` list (lines 261-267), holding the
`str(...)` paths by their component lists. -/
structure ManifestEntry where
  topic : PyStr
  examplePath : FPath
  studentPath : FPath
  solutionPath : FPath
  testPath : FPath
deriving DecidableEq

/-- The manifest value (line 275). -/
structure Manifest where
  lesson : PyStr
  created : List ManifestEntry
deriving DecidableEq

/-- The name derived on line 209 when `lesson_name` is falsy:
`re.sub(r"[^0-9a-zA-Z_-]", "_", first line or "lesson").strip("# ").strip()[:40]`. -/
def derivedLessonName (md : PyStr) : PyStr :=
  let firstLine := if md ≠ [] then (splitlines md).headD [] else S "lesson"
  (pyStrip (stripHashSpace (subNonWordHyphen firstLine))).take 40

/-- `lesson_name = lesson_name or <derived>` (line 209). -/
def deriveLessonName (md : PyStr) (name? : Option PyStr) : PyStr :=
  match name? with
  | some n => if n ≠ [] then n else derivedLessonName md
  | none => derivedLessonName md

/-- The package root `out / lesson_name` (line 210). -/
def packageBase (md : PyStr) (out : FPath) (name? : Option PyStr) : FPath :=
  out ++ [deriveLessonName md name?]

/-- The per-topic slug of lines 229-235 (`safe_title`), with `i` the
1-based topic index. -/
def safeTitleOf (titleRaw : PyStr) (i : Nat) : PyStr :=
  let t0 := if titleRaw = [] then S "topic_" ++ S (toString i) else titleRaw
  let s1 := collapseUnderscoreRuns (subNonWordRuns t0)
  let s2 := (pyLower (stripUnderscore s1)).take 40
  let s3 := if s2 = [] then S "topic_" ++ S (toString i) else s2
  if headIsDigit s3 then S "t_" ++ s3 else s3

/-- Models `re.match(r"def\s+([0-9a-zA-Z_]+)", code)` returning the first
capture group (line 243). -/
def matchDefName (code : PyStr) : Option PyStr :=
  match code with
  | 100 :: 101 :: 102 :: rest =>
    if rest.takeWhile pyIsSpace = [] then none
    else
      let nm := (rest.dropWhile pyIsSpace).takeWhile isWordChar
      if nm = [] then none else some nm
  | _ => none

/-- The function name extracted and re-normalised on lines 243-248. -/
def extractFuncName (code : PyStr) : PyStr :=
  let m := (matchDefName code).getD (S "example")
  let fn := subNonWordRuns m
  if headIsDigit fn then S "f_" ++ fn else fn

/-- Models `Path(name).stem`: the file name with its last suffix removed
(a leading-dot-only suffix does not count). -/
def stemPy (nm : PyStr) : PyStr :=
  match nm.reverse.dropWhile (· ≠ 46) with
  | [] => nm
  | _ :: restRev => if restRev = [] then nm else restRev.reverse

/-- One iteration of the topic loop of `create_lesson_package`
(lines 228-267): writes the example, student and solution files, re-reads
the example file to synthesise the test, writes it, and appends the
manifest entry. -/
def topicStep (base : FPath) (acc : FS × List ManifestEntry) (it : Nat × Topic) :
    FS × List ManifestEntry :=
  let fs := acc.1
  let i := it.1
  let topic := it.2
  let safe := safeTitleOf topic.title i
  let exampleName := S "example_" ++ safe ++ S ".py"
  let studentName := S "student_" ++ safe ++ S ".py"
  let testName := S "test_" ++ safe ++ S ".py"
  let exampleCode := generateExampleCode topic.title
  let studentCode := generateStudentSkeleton exampleCode
  let funcName := extractFuncName exampleCode
  let examplePath := base ++ [S "examples", exampleName]
  let studentPath := base ++ [S "students", studentName]
  let solutionPath := base ++ [S "solutions", studentName]
  let testPath := base ++ [S "tests", testName]
  let fs1 := fsWrite examplePath exampleCode fs
  let fs2 := fsWrite studentPath studentCode fs1
  let fs3 := fsWrite solutionPath exampleCode fs2
  let moduleRef := S "examples." ++ stemPy exampleName
  let src := (fs3 examplePath).getD []
  let testCode := generateTestForExample moduleRef funcName src
  let fs4 := fsWrite testPath testCode fs3
  (fs4, acc.2 ++ [⟨topic.title, examplePath, studentPath, solutionPath, testPath⟩])

/-- A deterministic rendering of `json.dumps` for one manifest entry;
byte-level layout of the JSON is not load-bearing for any claim. -/
def entryJson (e : ManifestEntry) : PyStr :=
  S "\x7b\x22topic\x22: \x22" ++ e.topic ++ S "\x22, \x22example\x22: \x22" ++
    joinWith (S "/") e.examplePath ++ S "\x22, \x22student\x22: \x22" ++
    joinWith (S "/") e.studentPath ++ S "\x22, \x22solution\x22: \x22" ++
    joinWith (S "/") e.solutionPath ++ S "\x22, \x22test\x22: \x22" ++
    joinWith (S "/") e.testPath ++ S "\x22\x7d"

/-- A deterministic rendering of `json.dumps(manifest, indent=2)`
(line 276). -/
def manifestJson (m : Manifest) : PyStr :=
  S "\x7b\x22lesson\x22: \x22" ++ m.lesson ++ S "\x22, \x22created\x22: [" ++
    joinWith (S ", ") (m.created.map entryJson) ++ S "]\x7d"

/-- The conditional `__init__.py` write of lines 270-273 for one directory. -/
def initStep (fs : FS) (d : FPath) : FS :=
  let ip := d ++ [S "__init__.py"]
  if fs ip = none then fsWrite ip (S "# package init\n") fs else fs

/-- The result of `create_lesson_package`: final filesystem, returned
package root, and the manifest value. -/
structure CreateResult where
  fs : FS
  root : FPath
  manifest : Manifest

/-- Models `create_lesson_package(lesson_markdown, out_dir, lesson_name)`
(lines 206-277) over the filesystem map, with `outResolved` the resolved
destination directory. -/
def createLessonPackage (md : PyStr) (outResolved : FPath) (name? : Option PyStr)
    (fs0 : FS) : CreateResult :=
  let lessonName := deriveLessonName md name?
  let base := outResolved ++ [lessonName]
  let fs1 := rmtreeUnder base fs0
  let fs2 := fsWrite (base ++ [S "README.md"]) md fs1
  let topics := splitIntoTopics md
  let res := (topics.enumFrom 1).foldl (topicStep base) (fs2, [])
  let dirs := [base ++ [S "examples"], base ++ [S "students"], base ++ [S "tests"],
               base ++ [S "solutions"], base]
  let fs3 := dirs.foldl initStep res.1
  let manifest : Manifest := ⟨lessonName, res.2⟩
  let fs4 := fsWrite (base ++ [S "manifest.json"]) (manifestJson manifest) fs3
  ⟨fs4, base, manifest⟩

/-! ## Basic lemmas about the string primitives -/

lemma splitIntoTopics_def (text : PyStr) :
    splitIntoTopics text =
      (if (flushSeg ((splitlines text).foldl stepLine initSeg)).topics = []
       then [⟨S "Lesson", text⟩]
       else (flushSeg ((splitlines text).foldl stepLine initSeg)).topics).map
        (fun t => ⟨if t.title = [] then S "Topic" else t.title, pyStrip t.summary⟩) := rfl

lemma mem_of_stripBy {p : Nat → Bool} {s : PyStr} {c : Nat}
    (h : c ∈ stripBy p s) : c ∈ s := by
  unfold stripBy dropTrailing at h
  have h1 := List.mem_reverse.mp h
  have h2 := (List.dropWhile_sublist p).subset h1
  have h3 := List.mem_reverse.mp h2
  exact (List.dropWhile_sublist p).subset h3

lemma stripBy_eq_nil {p : Nat → Bool} {s : PyStr}
    (h : ∀ c ∈ s, p c = true) : stripBy p s = [] := by
  unfold stripBy dropTrailing
  have : s.dropWhile p = [] := by
    rw [List.dropWhile_eq_nil_iff]
    exact h
  rw [this]
  rfl

/-! ## C5: segmentation totality -/

/-- C5: for every input string, segmentation returns a non-empty list of
topics (a Lean function, it never raises), and for the empty string it
returns exactly one topic with the default title `"Lesson"` and empty
body. -/
theorem segmentation_total_nonempty (text : PyStr) :
    splitIntoTopics text ≠ [] ∧ splitIntoTopics [] = [⟨S "Lesson", []⟩] := by
  constructor
  · unfold splitIntoTopics
    by_cases h : (flushSeg ((splitlines text).foldl stepLine initSeg)).topics = []
    · simp [h]
    · simp [h]
  · decide

/-! ## C1: lesson-name derivation -/

/-- C1 counterexample: for the lesson text `"\n# Hi"` (whose first
non-blank line is `"# Hi"`), the derived package name is empty — the code
uses the first line (here blank) rather than the first non-blank line, and
has no non-empty fallback. -/
theorem lesson_name_blank_first_line_cex :
    deriveLessonName (S "\n# Hi") none = [] := by decide

/-- C1 (amended): when `lesson_name` is not supplied, the derived name
comes from the first line of the lesson text (or the literal `"lesson"`
when the text is empty), with every character outside `[0-9a-zA-Z_-]`
replaced by `_`; it is at most 40 characters long and contains only
word characters and hyphens, but it may be empty. -/
theorem lesson_name_charset_bounded (md : PyStr) :
    (deriveLessonName md none).length ≤ 40
    ∧ (deriveLessonName md none).all (fun c => isWordChar c || c == 45) = true
    ∧ deriveLessonName [] none = S "lesson" := by
  refine ⟨?_, ?_, by decide⟩
  · show (derivedLessonName md).length ≤ 40
    unfold derivedLessonName
    exact List.length_take_le 40 _
  · show (derivedLessonName md).all _ = true
    unfold derivedLessonName
    rw [List.all_eq_true]
    intro c hc
    have h1 : c ∈ pyStrip (stripHashSpace (subNonWordHyphen
        (if md ≠ [] then (splitlines md).headD [] else S "lesson"))) :=
      List.mem_of_mem_take hc
    have h2 := mem_of_stripBy (mem_of_stripBy h1)
    unfold subNonWordHyphen at h2
    obtain ⟨x, _, hx⟩ := List.mem_map.mp h2
    by_cases hw : (isWordChar x || x == 45) = true
    · rw [if_pos hw] at hx
      subst hx
      simpa using hw
    · rw [if_neg hw] at hx
      subst hx
      decide

/-! ## Structure of `splitlines` -/

lemma takeLine_rest_le : ∀ cs : PyStr, (takeLine cs).2.length ≤ cs.length := by
  intro cs
  induction cs with
  | nil => simp [takeLine]
  | cons c cs ih =>
    by_cases hc : c = 13
    · subst hc
      cases cs with
      | nil => simp [takeLine]
      | cons d cs' =>
        by_cases hd : d = 10
        · subst hd
          simp [takeLine]
          omega
        · simp [takeLine, hd]
    · by_cases hb : isLineBreak c = true
      · simp [takeLine, hc, hb]
      · simp [takeLine, hc, hb]
        omega

lemma takeLine_rest_lt (c : Nat) (cs : PyStr) :
    ((takeLine (c :: cs)).2).length < (c :: cs).length := by
  by_cases hc : c = 13
  · subst hc
    cases cs with
    | nil => simp [takeLine]
    | cons d cs' =>
      by_cases hd : d = 10
      · subst hd
        simp [takeLine]
        omega
      · simp [takeLine, hd]
  · by_cases hb : isLineBreak c = true
    · simp [takeLine, hc, hb]
    · simp [takeLine, hc, hb]
      have := takeLine_rest_le cs
      omega

lemma splitlinesF_irrel : ∀ (f1 f2 : Nat) (cs : PyStr),
    cs.length ≤ f1 → cs.length ≤ f2 → splitlinesF f1 cs = splitlinesF f2 cs := by
  intro f1
  induction f1 with
  | zero =>
    intro f2 cs h1 _
    have : cs = [] := List.eq_nil_of_length_eq_zero (Nat.le_zero.mp h1)
    subst this
    cases f2 <;> rfl
  | succ f1 ih =>
    intro f2 cs h1 h2
    cases cs with
    | nil => cases f2 <;> rfl
    | cons c cs0 =>
      cases f2 with
      | zero => simp at h2
      | succ f2' =>
        simp only [splitlinesF]
        congr 1
        have hlt := takeLine_rest_lt c cs0
        have h1' : cs0.length + 1 ≤ f1 + 1 := by simpa using h1
        have h2' : cs0.length + 1 ≤ f2' + 1 := by simpa using h2
        exact ih f2' _ (by omega) (by omega)

lemma splitlines_eq {cs : PyStr} (h : cs ≠ []) :
    splitlines cs = (takeLine cs).1 :: splitlines (takeLine cs).2 := by
  obtain ⟨c, cs0, rfl⟩ := List.exists_cons_of_ne_nil h
  show splitlinesF (c :: cs0).length (c :: cs0) = _
  simp only [List.length_cons, splitlinesF]
  congr 1
  have hlt := takeLine_rest_lt c cs0
  exact splitlinesF_irrel cs0.length _ _ (by simpa using Nat.lt_succ_iff.mp (by simpa using hlt)) le_rfl

lemma takeLine_fst_mem : ∀ cs : PyStr, ∀ c ∈ (takeLine cs).1, c ∈ cs := by
  intro cs
  induction cs with
  | nil => simp [takeLine]
  | cons a as ih =>
    intro c hc
    by_cases ha : a = 13
    · subst ha
      cases as with
      | nil => simp [takeLine] at hc
      | cons d cs' =>
        by_cases hd : d = 10 <;> simp [takeLine, hd] at hc
    · by_cases hb : isLineBreak a = true
      · simp [takeLine, ha, hb] at hc
      · simp [takeLine, ha, hb] at hc
        rcases hc with hc | hc
        · simp [hc]
        · exact List.mem_cons_of_mem a (ih c hc)

lemma takeLine_snd_mem : ∀ cs : PyStr, ∀ c ∈ (takeLine cs).2, c ∈ cs := by
  intro cs
  induction cs with
  | nil => simp [takeLine]
  | cons a as ih =>
    intro c hc
    by_cases ha : a = 13
    · subst ha
      cases as with
      | nil => simp [takeLine] at hc
      | cons d cs' =>
        by_cases hd : d = 10 <;> simp [takeLine, hd] at hc <;> simp [hc]
    · by_cases hb : isLineBreak a = true
      · simp [takeLine, ha, hb] at hc
        exact List.mem_cons_of_mem a hc
      · simp [takeLine, ha, hb] at hc
        exact List.mem_cons_of_mem a (ih c hc)

lemma takeLine_fst_noBreak : ∀ cs : PyStr, ∀ c ∈ (takeLine cs).1, isLineBreak c = false := by
  intro cs
  induction cs with
  | nil => simp [takeLine]
  | cons a as ih =>
    intro c hc
    by_cases ha : a = 13
    · subst ha
      cases as with
      | nil => simp [takeLine] at hc
      | cons d cs' =>
        by_cases hd : d = 10 <;> simp [takeLine, hd] at hc
    · by_cases hb : isLineBreak a = true
      · simp [takeLine, ha, hb] at hc
      · simp [takeLine, ha, hb] at hc
        rcases hc with hc | hc
        · subst hc
          simpa using hb
        · exact ih c hc

lemma splitlinesF_mem_mem : ∀ (fuel : Nat) (cs : PyStr), ∀ l ∈ splitlinesF fuel cs,
    ∀ c ∈ l, c ∈ cs := by
  intro fuel
  induction fuel with
  | zero =>
    intro cs l hl
    cases cs <;> simp [splitlinesF] at hl
  | succ fuel ih =>
    intro cs l hl c hc
    cases cs with
    | nil => simp [splitlinesF] at hl
    | cons a as =>
      simp only [splitlinesF, List.mem_cons] at hl
      rcases hl with hl | hl
      · subst hl
        exact takeLine_fst_mem _ c hc
      · exact takeLine_snd_mem _ c (ih _ l hl c hc)

lemma splitlines_mem_mem (cs : PyStr) : ∀ l ∈ splitlines cs, ∀ c ∈ l, c ∈ cs :=
  splitlinesF_mem_mem cs.length cs

lemma splitlinesF_noBreak : ∀ (fuel : Nat) (cs : PyStr), ∀ l ∈ splitlinesF fuel cs,
    ∀ c ∈ l, isLineBreak c = false := by
  intro fuel
  induction fuel with
  | zero =>
    intro cs l hl
    cases cs <;> simp [splitlinesF] at hl
  | succ fuel ih =>
    intro cs l hl c hc
    cases cs with
    | nil => simp [splitlinesF] at hl
    | cons a as =>
      simp only [splitlinesF, List.mem_cons] at hl
      rcases hl with hl | hl
      · subst hl
        exact takeLine_fst_noBreak _ c hc
      · exact ih _ l hl c hc

lemma splitlines_noBreak (cs : PyStr) : ∀ l ∈ splitlines cs, ∀ c ∈ l, isLineBreak c = false :=
  splitlinesF_noBreak cs.length cs

lemma takeLine_append (l rest : PyStr) (h : ∀ c ∈ l, isLineBreak c = false) :
    takeLine (l ++ 10 :: rest) = (l, rest) := by
  induction l with
  | nil => simp [takeLine, isLineBreak]
  | cons a l ih =>
    have ha := h a (by simp)
    have ha13 : ¬ a = 13 := by
      intro e; subst e; simp [isLineBreak] at ha
    have hl : ∀ c ∈ l, isLineBreak c = false := fun c hc => h c (by simp [hc])
    simp [takeLine, ha13, ha, ih hl]

lemma splitlines_joinNL : ∀ ls : List PyStr, ls ≠ [] →
    (∀ l ∈ ls, ∀ c ∈ l, isLineBreak c = false) →
    splitlines (joinWith [10] ls ++ [10]) = ls := by
  intro ls
  induction ls with
  | nil => intro h; exact absurd rfl h
  | cons x ls ih =>
    intro _ hnb
    have hx : ∀ c ∈ x, isLineBreak c = false := hnb x (by simp)
    cases ls with
    | nil =>
      have hj : joinWith [10] [x] ++ [10] = x ++ 10 :: [] := rfl
      rw [hj, splitlines_eq (by simp), takeLine_append x [] hx]
      rfl
    | cons y tl =>
      have hrest : ∀ l ∈ y :: tl, ∀ c ∈ l, isLineBreak c = false := by
        intro l hl
        exact hnb l (by simp [hl])
      have hj : joinWith [10] (x :: y :: tl) ++ [10]
          = x ++ 10 :: (joinWith [10] (y :: tl) ++ [10]) := by
        show (x ++ [10] ++ joinWith [10] (y :: tl)) ++ [10] = _
        simp
      rw [hj, splitlines_eq (by simp), takeLine_append x _ hx]
      have := ih (by simp) hrest
      simp only at this ⊢
      rw [this]

/-! ## Skeleton structure lemmas -/

lemma noBreak_of_all {l : PyStr} (h : l.all (fun c => !isLineBreak c) = true) :
    ∀ c ∈ l, isLineBreak c = false := by
  intro c hc
  have := (List.all_eq_true.mp h) c hc
  simpa using this

lemma todo_noBreak : ∀ c ∈ todoLine, isLineBreak c = false :=
  noBreak_of_all (by decide)

lemma raise_noBreak : ∀ c ∈ raiseLine, isLineBreak c = false :=
  noBreak_of_all (by decide)

lemma skelLines_ne_nil (b : Bool) (ls : List PyStr) (h : ls ≠ []) :
    skelLines b ls ≠ [] := by
  obtain ⟨ln, rest, rfl⟩ := List.exists_cons_of_ne_nil h
  by_cases hd : isDefLine ln = true
  · simp [skelLines, hd]
  · cases b <;> simp [skelLines, hd]

lemma skelLines_mem : ∀ (ls : List PyStr) (b : Bool), ∀ l ∈ skelLines b ls,
    l ∈ ls ∨ l = todoLine ∨ l = raiseLine := by
  intro ls
  induction ls with
  | nil => intro b l hl; simp [skelLines] at hl
  | cons ln rest ih =>
    intro b l hl
    by_cases hd : isDefLine ln = true
    · simp [skelLines, hd] at hl
      rcases hl with hl | hl
      · exact Or.inl (by simp [hl])
      · rcases ih true l hl with h1 | h1
        · exact Or.inl (by simp [h1])
        · exact Or.inr h1
    · cases b with
      | false =>
        simp [skelLines, hd] at hl
        rcases hl with hl | hl
        · exact Or.inl (by simp [hl])
        · rcases ih false l hl with h1 | h1
          · exact Or.inl (by simp [h1])
          · exact Or.inr h1
      | true =>
        simp [skelLines, hd] at hl
        rcases hl with hl | hl | hl
        · exact Or.inr (Or.inl hl)
        · exact Or.inr (Or.inr hl)
        · rcases ih false l hl with h1 | h1
          · exact Or.inl (by simp [h1])
          · exact Or.inr h1

/-- The skeleton string, split back into lines, is exactly the transformed
line list (the skeleton derivation introduces no new line breaks). -/
lemma skeleton_lines (src : PyStr) (h : splitlines src ≠ []) :
    splitlines (generateStudentSkeleton src) = skelLines false (splitlines src) := by
  unfold generateStudentSkeleton
  rw [if_neg (skelLines_ne_nil false _ h)]
  apply splitlines_joinNL
  · exact skelLines_ne_nil false _ h
  · intro l hl c hc
    rcases skelLines_mem _ _ l hl with h1 | h1 | h1
    · exact splitlines_noBreak src l h1 c hc
    · subst h1
      exact todo_noBreak c hc
    · subst h1
      exact raise_noBreak c hc

lemma isDefLine_todo : isDefLine todoLine = false := by decide

lemma isDefLine_raise : isDefLine raiseLine = false := by decide

lemma skelLines_find : ∀ (ls : List PyStr) (b : Bool),
    (skelLines b ls).find? isDefLine = ls.find? isDefLine := by
  intro ls
  induction ls with
  | nil => intro b; rfl
  | cons ln rest ih =>
    intro b
    by_cases hd : isDefLine ln = true
    · rw [show skelLines b (ln :: rest) = ln :: skelLines true rest from by
        simp [skelLines, hd]]
      rw [List.find?_cons_of_pos _ hd, List.find?_cons_of_pos _ hd]
    · cases b with
      | false =>
        rw [show skelLines false (ln :: rest) = ln :: skelLines false rest from by
          simp [skelLines, hd]]
        rw [List.find?_cons_of_neg _ (by simp [hd]), List.find?_cons_of_neg _ (by simp [hd])]
        exact ih false
      | true =>
        rw [show skelLines true (ln :: rest) = todoLine :: raiseLine :: skelLines false rest from by
          simp [skelLines, hd]]
        rw [List.find?_cons_of_neg _ (by simp [isDefLine_todo]),
            List.find?_cons_of_neg _ (by simp [isDefLine_raise]),
            List.find?_cons_of_neg _ (by simp [hd])]
        exact ih false

/-! ## C8: skeleton preserves the declaration line -/

/-- C8: whenever the example source contains a callable declaration line
(a line starting with `"def "`), the first declaration line of the derived
skeleton is byte-identical to the first declaration line of the example
source. -/
theorem skeleton_preserves_decl_line (src d : PyStr)
    (h : (splitlines src).find? isDefLine = some d) :
    (splitlines (generateStudentSkeleton src)).find? isDefLine = some d := by
  have hne : splitlines src ≠ [] := by
    intro e
    rw [e] at h
    simp at h
  rw [skeleton_lines src hne, skelLines_find _ false, h]

/-- C8 witness at a concrete example source. -/
theorem skeleton_preserves_decl_line_witness :
    (splitlines (S "def f(x):\n    return x\n")).find? isDefLine = some (S "def f(x):")
    ∧ (splitlines (generateStudentSkeleton (S "def f(x):\n    return x\n"))).find? isDefLine
        = some (S "def f(x):") :=
  ⟨by decide, skeleton_preserves_decl_line _ _ (by decide)⟩

/-! ## C2: what the skeleton does to the callable body -/

/-- C2 counterexample: for the aggregate example generated from the title
`"add"`, the original body line `return sum(numbers)` (not a declaration
line) is still present in the derived skeleton — the claim that no line of
the original callable body remains is false. -/
theorem skeleton_body_line_survives_cex :
    S "    return sum(numbers)" ∈ splitlines (generateStudentSkeleton (generateExampleCode (S "add")))
    ∧ S "    return sum(numbers)" ∈ splitlines (generateExampleCode (S "add"))
    ∧ isDefLine (S "    return sum(numbers)") = false := by decide

lemma skelLines_decomp (pre : List PyStr) (d b : PyStr) (rest : List PyStr)
    (hpre : ∀ l ∈ pre, isDefLine l = false)
    (hd : isDefLine d = true) (hb : isDefLine b = false) :
    skelLines false (pre ++ d :: b :: rest) =
      pre ++ d :: todoLine :: raiseLine :: skelLines false rest := by
  induction pre with
  | nil => simp [skelLines, hd, hb]
  | cons x xs ih =>
    have hx := hpre x (by simp)
    have hxs : ∀ l ∈ xs, isDefLine l = false := fun l hl => hpre l (by simp [hl])
    simp [skelLines, hx, ih hxs]

/-- C2 (amended): the skeleton replaces only the first line after the
declaration line with the two placeholder lines; the remaining body lines
are carried over by the same rule (and in particular survive verbatim when
they contain no further declaration). -/
theorem skeleton_replaces_first_body_line (src : PyStr) (pre : List PyStr) (d b : PyStr)
    (rest : List PyStr)
    (hsplit : splitlines src = pre ++ d :: b :: rest)
    (hpre : ∀ l ∈ pre, isDefLine l = false)
    (hd : isDefLine d = true) (hb : isDefLine b = false) :
    splitlines (generateStudentSkeleton src) =
      pre ++ d :: todoLine :: raiseLine :: skelLines false rest := by
  have hne : splitlines src ≠ [] := by
    rw [hsplit]
    simp
  rw [skeleton_lines src hne, hsplit, skelLines_decomp pre d b rest hpre hd hb]

/-- C2 witness at a concrete two-line callable. -/
theorem skeleton_replaces_first_body_line_witness :
    (splitlines (S "def f(x):\n    return x") = [S "def f(x):", S "    return x"])
    ∧ splitlines (generateStudentSkeleton (S "def f(x):\n    return x")) =
        [S "def f(x):", todoLine, raiseLine] :=
  ⟨by decide, by
    have := skeleton_replaces_first_body_line (S "def f(x):\n    return x") []
      (S "def f(x):") (S "    return x") [] (by decide) (by simp) (by decide) (by decide)
    simpa using this⟩

/-! ## C9: inputs without a callable declaration -/

/-- C9 counterexample: for the input `"hello"`, which contains no callable
declaration line, the skeleton is `"hello\n"` — the original content passed
through — not a single placeholder line. -/
theorem skeleton_no_decl_passthrough_cex :
    generateStudentSkeleton (S "hello") = S "hello\n"
    ∧ S "hello\n" ≠ S "# TODO: implement\n" := by decide

lemma skelLines_id (ls : List PyStr) (h : ∀ l ∈ ls, isDefLine l = false) :
    skelLines false ls = ls := by
  induction ls with
  | nil => rfl
  | cons ln rest ih =>
    have h1 := h ln (by simp)
    simp [skelLines, h1, ih (fun l hl => h l (by simp [hl]))]

/-- C9 (amended): when no callable declaration line is present, the
skeleton is the placeholder line only for input with no lines at all
(the empty string); otherwise every input line passes through unchanged
(rejoined with a trailing newline), and derivation is total. -/
theorem skeleton_no_decl_behavior (src : PyStr)
    (h : ∀ l ∈ splitlines src, isDefLine l = false) :
    generateStudentSkeleton src =
      if splitlines src = [] then S "# TODO: implement\n"
      else joinWith [10] (splitlines src) ++ [10] := by
  unfold generateStudentSkeleton
  rw [skelLines_id _ h]

/-- C9 witness at a concrete declaration-free input. -/
theorem skeleton_no_decl_behavior_witness :
    (∀ l ∈ splitlines (S "x = 1"), isDefLine l = false)
    ∧ generateStudentSkeleton (S "x = 1") =
        (if splitlines (S "x = 1") = [] then S "# TODO: implement\n"
         else joinWith [10] (splitlines (S "x = 1")) ++ [10]) :=
  ⟨by decide, skeleton_no_decl_behavior _ (by decide)⟩

/-! ## C6: topic bodies and whitespace-only input -/

/-- C6 counterexample: for the pure-whitespace input `" "`, the fallback
topic's body is the empty string (the final normalisation strips it), not
the verbatim input text. -/
theorem whitespace_body_not_verbatim_cex :
    splitIntoTopics (S " ") = [⟨S "Lesson", []⟩]
    ∧ ([] : PyStr) ≠ S " " := by decide

lemma stepLine_blank (st : SegState) (ln : PyStr) (h : pyStrip ln = [])
    (h2 : st.curLines = []) : stepLine st ln = st := by
  simp [stepLine, h, h2]

/-- C6 (amended): for pure-whitespace input the single fallback topic has
title `"Lesson"` and body equal to the stripped input text, which is
empty. -/
theorem whitespace_input_single_topic (text : PyStr)
    (h : ∀ c ∈ text, pyIsSpace c = true) :
    splitIntoTopics text = [⟨S "Lesson", []⟩] := by
  have hlines : ∀ ln ∈ splitlines text, pyStrip ln = [] := by
    intro ln hln
    exact stripBy_eq_nil (fun c hc => h c (splitlines_mem_mem text ln hln c hc))
  have hfold : ∀ lines : List PyStr, (∀ ln ∈ lines, pyStrip ln = []) →
      lines.foldl stepLine initSeg = initSeg := by
    intro lines
    induction lines with
    | nil => intro _; rfl
    | cons ln rest ih =>
      intro hall
      have h1 := hall ln (by simp)
      simp only [List.foldl_cons, stepLine_blank initSeg ln h1 rfl]
      exact ih (fun l hl => hall l (by simp [hl]))
  have hstriptext : pyStrip text = [] := stripBy_eq_nil h
  rw [splitIntoTopics_def, hfold _ hlines]
  rw [show flushSeg initSeg = initSeg from by decide]
  simp [initSeg, hstriptext, show S "Lesson" ≠ [] from by decide]

/-- C6 witness at the concrete pure-whitespace input `" "`. -/
theorem whitespace_input_single_topic_witness :
    (∀ c ∈ S " ", pyIsSpace c = true)
    ∧ splitIntoTopics (S " ") = [⟨S "Lesson", []⟩] :=
  ⟨by decide, whitespace_input_single_topic _ (by decide)⟩

/-! ## C3: file-name slug versus callable name -/

lemma isWordChar_pyToLower (c : Nat) : isWordChar (pyToLower c) = isWordChar c := by
  unfold pyToLower isWordChar
  split_ifs with h
  · rw [decide_eq_decide]
    omega
  · rfl

lemma pyToLower_eq_95 (c : Nat) : decide (pyToLower c = 95) = decide (c = 95) := by
  unfold pyToLower
  split_ifs with h
  · rw [decide_eq_decide]
    omega
  · rfl

lemma pyIsDigit_pyToLower (c : Nat) : pyIsDigit (pyToLower c) = pyIsDigit c := by
  unfold pyToLower pyIsDigit
  split_ifs with h
  · rw [decide_eq_decide]
    omega
  · rfl

lemma pyToLower_95 : pyToLower 95 = 95 := rfl

lemma subNonWordAux_map_lower : ∀ (s : PyStr) (b : Bool),
    subNonWordAux b (pyLower s) = pyLower (subNonWordAux b s) := by
  intro s
  induction s with
  | nil => intro b; rfl
  | cons c rest ih =>
    intro b
    show subNonWordAux b (pyToLower c :: pyLower rest) = pyLower (subNonWordAux b (c :: rest))
    by_cases hw : isWordChar c = true
    · have hw2 : isWordChar (pyToLower c) = true := by
        rw [isWordChar_pyToLower]
        exact hw
      rw [show subNonWordAux b (pyToLower c :: pyLower rest)
          = pyToLower c :: subNonWordAux false (pyLower rest) from by simp [subNonWordAux, hw2]]
      rw [show subNonWordAux b (c :: rest) = c :: subNonWordAux false rest from by
        simp [subNonWordAux, hw]]
      rw [ih false]
      rfl
    · have hw2 : isWordChar (pyToLower c) = false := by
        rw [isWordChar_pyToLower]
        simpa using hw
      cases b with
      | false =>
        rw [show subNonWordAux false (pyToLower c :: pyLower rest)
            = 95 :: subNonWordAux true (pyLower rest) from by simp [subNonWordAux, hw2]]
        rw [show subNonWordAux false (c :: rest) = 95 :: subNonWordAux true rest from by
          simp [subNonWordAux, hw]]
        rw [ih true]
        rfl
      | true =>
        rw [show subNonWordAux true (pyToLower c :: pyLower rest)
            = subNonWordAux true (pyLower rest) from by simp [subNonWordAux, hw2]]
        rw [show subNonWordAux true (c :: rest) = subNonWordAux true rest from by
          simp [subNonWordAux, hw]]
        exact ih true

lemma subNonWordRuns_map_lower (s : PyStr) :
    subNonWordRuns (pyLower s) = pyLower (subNonWordRuns s) :=
  subNonWordAux_map_lower s false

lemma stripUnderscore_map_lower (s : PyStr) :
    stripUnderscore (pyLower s) = pyLower (stripUnderscore s) := by
  have hfun : ((fun n : Nat => decide (n = 95)) ∘ pyToLower)
      = (fun n : Nat => decide (n = 95)) := by
    funext c
    simp only [Function.comp_apply]
    exact pyToLower_eq_95 c
  show stripUnderscore (s.map pyToLower) = (stripUnderscore s).map pyToLower
  unfold stripUnderscore stripBy dropTrailing
  rw [List.dropWhile_map, hfun, ← List.map_reverse, List.dropWhile_map, hfun, ← List.map_reverse]

lemma headIsDigit_pyLower (s : PyStr) : headIsDigit (pyLower s) = headIsDigit s := by
  cases s with
  | nil => rfl
  | cons c rest =>
    show pyIsDigit (pyToLower c) = pyIsDigit c
    exact pyIsDigit_pyToLower c

/-- C3 counterexample: for the topic title `"a__b"` the file-name slug is
`"a_b"` (underscore runs collapsed, line 231) while the callable defined in
the generated example is `"a__b"` (no collapsing, line 129): the two names
differ. -/
theorem slug_funcname_differ_cex :
    safeTitleOf (S "a__b") 1 = S "a_b"
    ∧ funcNameOf (S "a__b") = S "a__b"
    ∧ S "a_b" ≠ S "a__b" := by decide

/-- C3 (amended): the file-name slug and the callable name are derived by
two different normalisations (collapse of underscore runs, truncation at 40
versus 30, `t_` versus `f_` digit prefixes, different fallbacks); they
coincide whenever the title's word-run normalisation has no underscore run
to collapse, is at most 30 long after stripping underscores, is non-empty
and does not start with a digit. -/
theorem slug_funcname_agree (title : PyStr) (i : Nat)
    (h0 : title ≠ [])
    (h1 : collapseUnderscoreRuns (subNonWordRuns title) = subNonWordRuns title)
    (h2 : (stripUnderscore (subNonWordRuns title)).length ≤ 30)
    (h3 : stripUnderscore (subNonWordRuns title) ≠ [])
    (h4 : headIsDigit (stripUnderscore (subNonWordRuns title)) = false) :
    safeTitleOf title i = funcNameOf title := by
  have ht30 : (pyLower (stripUnderscore (subNonWordRuns title))).take 30
      = pyLower (stripUnderscore (subNonWordRuns title)) := by
    show ((stripUnderscore (subNonWordRuns title)).map pyToLower).take 30 = _
    rw [← List.map_take, List.take_of_length_le h2]
    rfl
  have ht40 : (pyLower (stripUnderscore (subNonWordRuns title))).take 40
      = pyLower (stripUnderscore (subNonWordRuns title)) := by
    show ((stripUnderscore (subNonWordRuns title)).map pyToLower).take 40 = _
    rw [← List.map_take, List.take_of_length_le (le_trans h2 (by norm_num))]
    rfl
  have hne : pyLower (stripUnderscore (subNonWordRuns title)) ≠ [] := by
    simpa [pyLower] using h3
  have hhd : headIsDigit (pyLower (stripUnderscore (subNonWordRuns title))) = false := by
    rw [headIsDigit_pyLower]
    exact h4
  simp only [safeTitleOf, funcNameOf, if_neg h0, h1, subNonWordRuns_map_lower,
    stripUnderscore_map_lower, ht30, ht40, if_neg hne, hhd, Bool.false_eq_true, if_false]

/-- C3 witness: for the title `"Sum of values"` the hypotheses hold and the
slug and the callable name agree (both are `"sum_of_values"`). -/
theorem slug_funcname_agree_witness :
    (S "Sum of values" ≠ [])
    ∧ collapseUnderscoreRuns (subNonWordRuns (S "Sum of values"))
        = subNonWordRuns (S "Sum of values")
    ∧ (stripUnderscore (subNonWordRuns (S "Sum of values"))).length ≤ 30
    ∧ stripUnderscore (subNonWordRuns (S "Sum of values")) ≠ []
    ∧ headIsDigit (stripUnderscore (subNonWordRuns (S "Sum of values"))) = false
    ∧ safeTitleOf (S "Sum of values") 1 = funcNameOf (S "Sum of values") :=
  ⟨by decide, by decide, by decide, by decide, by decide,
    slug_funcname_agree _ 1 (by decide) (by decide) (by decide) (by decide) (by decide)⟩

/-! ## C7: classification rules -/

/-- C7: classification (the branch chain of `_generate_example_code`) is a
total function of the title, and matches the fixed priority order of
keyword substring tests on the lower-cased title, first matching rule
winning. -/
theorem classification_priority_rules (titleRaw : PyStr) :
    (classifyTitle titleRaw = .AGGREGATE ↔ aggKw (pyLower titleRaw) = true)
    ∧ (classifyTitle titleRaw = .REVERSE ↔
        (aggKw (pyLower titleRaw) = false ∧ revKw (pyLower titleRaw) = true))
    ∧ (classifyTitle titleRaw = .PREDICATE ↔
        (aggKw (pyLower titleRaw) = false ∧ revKw (pyLower titleRaw) = false ∧
         predKw (pyLower titleRaw) = true))
    ∧ (classifyTitle titleRaw = .IDENTITY ↔
        (aggKw (pyLower titleRaw) = false ∧ revKw (pyLower titleRaw) = false ∧
         predKw (pyLower titleRaw) = false)) := by
  by_cases h : titleRaw = []
  · subst h; decide
  · unfold classifyTitle
    rw [if_neg h]
    cases ha : aggKw (pyLower titleRaw) <;>
      cases hr : revKw (pyLower titleRaw) <;>
        cases hp : predKw (pyLower titleRaw) <;>
          simp [ha, hr, hp]

/-! ## C4 and C10: materialization as a filesystem transformer -/

lemma underPath_append (base rest : FPath) : underPath base (base ++ rest) = true := by
  induction base with
  | nil => rfl
  | cons a as ih => simp [underPath, ih]

lemma underPath_refl (base : FPath) : underPath base base = true := by
  simpa using underPath_append base []

lemma underPath_extend : ∀ {base d : FPath}, underPath base d = true → ∀ rest : FPath,
    underPath base (d ++ rest) = true := by
  intro base
  induction base with
  | nil => intro d _ rest; rfl
  | cons a as ih =>
    intro d h rest
    cases d with
    | nil => simp [underPath] at h
    | cons b bs =>
      simp only [underPath, Bool.and_eq_true, decide_eq_true_eq] at h
      simp only [List.cons_append, underPath, Bool.and_eq_true, decide_eq_true_eq]
      exact ⟨h.1, ih h.2 rest⟩

/-- The two filesystems agree on every path below `base`. -/
def AgreeUnder (base : FPath) (f g : FS) : Prop :=
  ∀ p, underPath base p = true → f p = g p

lemma agreeUnder_rmtree (base : FPath) (f g : FS) :
    AgreeUnder base (rmtreeUnder base f) (rmtreeUnder base g) := by
  intro p hp
  simp [rmtreeUnder, hp]

lemma agreeUnder_write {base : FPath} {f g : FS} (h : AgreeUnder base f g)
    (q : FPath) (c : PyStr) : AgreeUnder base (fsWrite q c f) (fsWrite q c g) := by
  intro p hp
  unfold fsWrite
  split
  · rfl
  · exact h p hp

lemma write_eq (p : FPath) (c : PyStr) (fs : FS) : fsWrite p c fs p = some c :=
  if_pos rfl

lemma write_ne {p q : FPath} (h : q ≠ p) (c : PyStr) (fs : FS) : fsWrite p c fs q = fs q :=
  if_neg h

lemma append_two_ne (base : FPath) (a x b y : PyStr) (hab : a ≠ b) :
    base ++ [a, x] ≠ base ++ [b, y] := by
  intro h
  have h2 := List.append_cancel_left h
  simp only [List.cons.injEq] at h2
  exact hab h2.1

/-- `topicStep` in closed form: the example file is read back immediately
after being written, so the test is synthesised from the example source. -/
lemma topicStep_eq (base : FPath) (fs : FS) (created : List ManifestEntry)
    (i : Nat) (t : Topic) :
    topicStep base (fs, created) (i, t) =
      (fsWrite (base ++ [S "tests", S "test_" ++ safeTitleOf t.title i ++ S ".py"])
         (generateTestForExample
           (S "examples." ++ stemPy (S "example_" ++ safeTitleOf t.title i ++ S ".py"))
           (extractFuncName (generateExampleCode t.title)) (generateExampleCode t.title))
       (fsWrite (base ++ [S "solutions", S "student_" ++ safeTitleOf t.title i ++ S ".py"])
         (generateExampleCode t.title)
       (fsWrite (base ++ [S "students", S "student_" ++ safeTitleOf t.title i ++ S ".py"])
         (generateStudentSkeleton (generateExampleCode t.title))
       (fsWrite (base ++ [S "examples", S "example_" ++ safeTitleOf t.title i ++ S ".py"])
         (generateExampleCode t.title) fs))),
       created ++ [⟨t.title,
         base ++ [S "examples", S "example_" ++ safeTitleOf t.title i ++ S ".py"],
         base ++ [S "students", S "student_" ++ safeTitleOf t.title i ++ S ".py"],
         base ++ [S "solutions", S "student_" ++ safeTitleOf t.title i ++ S ".py"],
         base ++ [S "tests", S "test_" ++ safeTitleOf t.title i ++ S ".py"]⟩]) := by
  have hsol : base ++ [S "examples", S "example_" ++ safeTitleOf t.title i ++ S ".py"]
      ≠ base ++ [S "solutions", S "student_" ++ safeTitleOf t.title i ++ S ".py"] :=
    append_two_ne base _ _ _ _ (by decide)
  have hstu : base ++ [S "examples", S "example_" ++ safeTitleOf t.title i ++ S ".py"]
      ≠ base ++ [S "students", S "student_" ++ safeTitleOf t.title i ++ S ".py"] :=
    append_two_ne base _ _ _ _ (by decide)
  simp only [topicStep]
  rw [write_ne hsol, write_ne hstu, write_eq]
  rfl

lemma agreeUnder_topicStep {base : FPath} {f g : FS} (created : List ManifestEntry)
    (it : Nat × Topic) (h : AgreeUnder base f g) :
    AgreeUnder base (topicStep base (f, created) it).1 (topicStep base (g, created) it).1
    ∧ (topicStep base (f, created) it).2 = (topicStep base (g, created) it).2 := by
  obtain ⟨i, t⟩ := it
  rw [topicStep_eq, topicStep_eq]
  exact ⟨agreeUnder_write (agreeUnder_write (agreeUnder_write (agreeUnder_write h _ _) _ _) _ _) _ _,
    rfl⟩

lemma agreeUnder_fold (base : FPath) (l : List (Nat × Topic)) :
    ∀ (f g : FS) (created : List ManifestEntry), AgreeUnder base f g →
    AgreeUnder base (l.foldl (topicStep base) (f, created)).1
      (l.foldl (topicStep base) (g, created)).1
    ∧ (l.foldl (topicStep base) (f, created)).2 = (l.foldl (topicStep base) (g, created)).2 := by
  induction l with
  | nil =>
    intro f g created h
    exact ⟨h, rfl⟩
  | cons it rest ih =>
    intro f g created h
    simp only [List.foldl_cons]
    obtain ⟨h1, h2⟩ := agreeUnder_topicStep created it h
    rcases hf : topicStep base (f, created) it with ⟨f1, c1⟩
    rcases hg : topicStep base (g, created) it with ⟨g1, c2⟩
    rw [hf] at h1 h2
    rw [hg] at h1 h2
    simp only at h1 h2
    subst h2
    exact ih f1 g1 c1 h1

lemma agreeUnder_initStep {base : FPath} {f g : FS} (d : FPath)
    (hd : underPath base d = true) (h : AgreeUnder base f g) :
    AgreeUnder base (initStep f d) (initStep g d) := by
  simp only [initStep]
  rw [h _ (underPath_extend hd [S "__init__.py"])]
  split
  · exact agreeUnder_write h _ _
  · exact h

lemma agreeUnder_initFold (base : FPath) (dirs : List FPath) :
    ∀ (f g : FS), (∀ d ∈ dirs, underPath base d = true) → AgreeUnder base f g →
    AgreeUnder base (dirs.foldl initStep f) (dirs.foldl initStep g) := by
  induction dirs with
  | nil =>
    intro f g _ h
    exact h
  | cons d rest ih =>
    intro f g hdirs h
    simp only [List.foldl_cons]
    exact ih _ _ (fun x hx => hdirs x (by simp [hx]))
      (agreeUnder_initStep d (hdirs d (by simp)) h)

/-- The package contents below the package root are a function of the
arguments alone: the initial filesystem state is irrelevant there. -/
lemma createLessonPackage_indep (md : PyStr) (out : FPath) (name? : Option PyStr)
    (f g : FS) :
    ∀ p, underPath (packageBase md out name?) p = true →
      (createLessonPackage md out name? f).fs p = (createLessonPackage md out name? g).fs p := by
  intro p hp
  have hp' : underPath (out ++ [deriveLessonName md name?]) p = true := hp
  simp only [createLessonPackage]
  have h2 : AgreeUnder (out ++ [deriveLessonName md name?])
      (fsWrite (out ++ [deriveLessonName md name?] ++ [S "README.md"]) md
        (rmtreeUnder (out ++ [deriveLessonName md name?]) f))
      (fsWrite (out ++ [deriveLessonName md name?] ++ [S "README.md"]) md
        (rmtreeUnder (out ++ [deriveLessonName md name?]) g)) :=
    agreeUnder_write (agreeUnder_rmtree _ f g) _ _
  obtain ⟨h3, h4⟩ := agreeUnder_fold (out ++ [deriveLessonName md name?])
    (List.enumFrom 1 (splitIntoTopics md)) _ _ [] h2
  have hdirs : ∀ d ∈ [out ++ [deriveLessonName md name?] ++ [S "examples"],
      out ++ [deriveLessonName md name?] ++ [S "students"],
      out ++ [deriveLessonName md name?] ++ [S "tests"],
      out ++ [deriveLessonName md name?] ++ [S "solutions"],
      out ++ [deriveLessonName md name?]],
      underPath (out ++ [deriveLessonName md name?]) d = true := by
    intro d hd
    simp only [List.mem_cons, List.not_mem_nil, or_false] at hd
    rcases hd with rfl | rfl | rfl | rfl | rfl
    · exact underPath_append _ _
    · exact underPath_append _ _
    · exact underPath_append _ _
    · exact underPath_append _ _
    · exact underPath_refl _
  have h5 := agreeUnder_initFold (out ++ [deriveLessonName md name?]) _ _ _ hdirs h3
  rw [h4]
  exact agreeUnder_write h5 _ _ p hp'

/-- C4: `create_lesson_package` is destructive-idempotent on the package
directory: a second run over the first run's filesystem reproduces the
package contents byte for byte, and the package contents after any run
coincide with a run from the empty filesystem — no file of a pre-existing
package at the same destination survives unless rewritten identically. -/
theorem create_destructive_idempotent (md : PyStr) (out : FPath) (name? : Option PyStr)
    (fs : FS) (p : FPath) (hp : underPath (packageBase md out name?) p = true) :
    (createLessonPackage md out name? ((createLessonPackage md out name? fs).fs)).fs p
      = (createLessonPackage md out name? fs).fs p
    ∧ (createLessonPackage md out name? fs).fs p
      = (createLessonPackage md out name? emptyFS).fs p :=
  ⟨createLessonPackage_indep md out name? _ _ p hp,
   createLessonPackage_indep md out name? _ _ p hp⟩

/-- C4 witness: a stale file inside the package directory is gone after a
run (both conjuncts instantiated at the stale path). -/
theorem create_destructive_idempotent_witness :
    underPath (packageBase (S "Sum") [S "dest"] none) [S "dest", S "Sum", S "stale.py"] = true
    ∧ ((createLessonPackage (S "Sum") [S "dest"] none
          ((createLessonPackage (S "Sum") [S "dest"] none
            (fsWrite [S "dest", S "Sum", S "stale.py"] (S "old") emptyFS)).fs)).fs
          [S "dest", S "Sum", S "stale.py"]
        = (createLessonPackage (S "Sum") [S "dest"] none
            (fsWrite [S "dest", S "Sum", S "stale.py"] (S "old") emptyFS)).fs
          [S "dest", S "Sum", S "stale.py"]
      ∧ (createLessonPackage (S "Sum") [S "dest"] none
            (fsWrite [S "dest", S "Sum", S "stale.py"] (S "old") emptyFS)).fs
          [S "dest", S "Sum", S "stale.py"]
        = (createLessonPackage (S "Sum") [S "dest"] none emptyFS).fs
          [S "dest", S "Sum", S "stale.py"]) :=
  ⟨by decide, create_destructive_idempotent _ _ _ _ _ (by decide)⟩

lemma fold_entries_shape (base : FPath) (l : List (Nat × Topic)) :
    ∀ (fs : FS) (created : List ManifestEntry) (e : ManifestEntry),
    e ∈ (l.foldl (topicStep base) (fs, created)).2 →
    e ∈ created ∨ ((∃ f, e.examplePath = base ++ [S "examples", f])
      ∧ (∃ f, e.studentPath = base ++ [S "students", f])
      ∧ (∃ f, e.solutionPath = base ++ [S "solutions", f])
      ∧ (∃ f, e.testPath = base ++ [S "tests", f])) := by
  induction l with
  | nil =>
    intro fs created e he
    exact Or.inl he
  | cons it rest ih =>
    intro fs created e he
    obtain ⟨i, t⟩ := it
    rw [List.foldl_cons, topicStep_eq] at he
    rcases ih _ _ e he with h1 | h1
    · rcases List.mem_append.mp h1 with h2 | h2
      · exact Or.inl h2
      · simp only [List.mem_singleton] at h2
        subst h2
        exact Or.inr ⟨⟨_, rfl⟩, ⟨_, rfl⟩, ⟨_, rfl⟩, ⟨_, rfl⟩⟩
    · exact Or.inr h1

/-- C10: every path recorded in a manifest entry is rooted at the resolved
destination directory (it extends the resolved destination by the package
directory, the member directory, and the file name — never a
package-relative path). -/
theorem manifest_paths_rooted (md : PyStr) (out : FPath) (name? : Option PyStr) (fs : FS)
    (e : ManifestEntry) (he : e ∈ (createLessonPackage md out name? fs).manifest.created) :
    (underPath out e.examplePath = true ∧ underPath out e.studentPath = true
      ∧ underPath out e.solutionPath = true ∧ underPath out e.testPath = true)
    ∧ (∃ f, e.examplePath = packageBase md out name? ++ [S "examples", f])
    ∧ (∃ f, e.studentPath = packageBase md out name? ++ [S "students", f])
    ∧ (∃ f, e.solutionPath = packageBase md out name? ++ [S "solutions", f])
    ∧ (∃ f, e.testPath = packageBase md out name? ++ [S "tests", f]) := by
  have he' : e ∈ ((List.enumFrom 1 (splitIntoTopics md)).foldl
      (topicStep (out ++ [deriveLessonName md name?]))
      (fsWrite (out ++ [deriveLessonName md name?] ++ [S "README.md"]) md
        (rmtreeUnder (out ++ [deriveLessonName md name?]) fs), [])).2 := he
  rcases fold_entries_shape _ _ _ _ e he' with h | h
  · simp at h
  · obtain ⟨⟨f1, hf1⟩, ⟨f2, hf2⟩, ⟨f3, hf3⟩, ⟨f4, hf4⟩⟩ := h
    have hu : ∀ (x y : PyStr),
        underPath out (out ++ [deriveLessonName md name?] ++ [x, y]) = true := by
      intro x y
      rw [List.append_assoc]
      exact underPath_append out _
    refine ⟨⟨?_, ?_, ?_, ?_⟩, ⟨f1, hf1⟩, ⟨f2, hf2⟩, ⟨f3, hf3⟩, ⟨f4, hf4⟩⟩
    · rw [hf1]; exact hu _ _
    · rw [hf2]; exact hu _ _
    · rw [hf3]; exact hu _ _
    · rw [hf4]; exact hu _ _

/-- C10 witness: the single manifest entry of a concrete run, with its four
destination-rooted paths. -/
theorem manifest_paths_rooted_witness :
    ((⟨S "Sum", [S "dest", S "Sum", S "examples", S "example_sum.py"],
        [S "dest", S "Sum", S "students", S "student_sum.py"],
        [S "dest", S "Sum", S "solutions", S "student_sum.py"],
        [S "dest", S "Sum", S "tests", S "test_sum.py"]⟩ : ManifestEntry)
      ∈ (createLessonPackage (S "Sum") [S "dest"] none emptyFS).manifest.created)
    ∧ underPath [S "dest"] [S "dest", S "Sum", S "examples", S "example_sum.py"] = true :=
  ⟨by decide,
   ((manifest_paths_rooted (S "Sum") [S "dest"] none emptyFS
      ⟨S "Sum", [S "dest", S "Sum", S "examples", S "example_sum.py"],
        [S "dest", S "Sum", S "students", S "student_sum.py"],
        [S "dest", S "Sum", S "solutions", S "student_sum.py"],
        [S "dest", S "Sum", S "tests", S "test_sum.py"]⟩ (by decide)).1).1⟩

end LessonGen

